import Mathlib

/-!
Verification of the BARW simulation driver (`branching_simulation.py`).

The driver `simulation_loop` and the `Tissue` controller are embedded below.
The geometry kernel (`branching_rules.py`, imported as `br`) is not part of
the sources; its two entry points `br.branching` and `br.guidance_avoidance`
are therefore abstracted as an arbitrary `Kernel` record, so every theorem
quantifies over all possible kernel behaviours (or assumes exactly the
guarantee the specification states for the kernel, where noted).

Numeric values (Python floats) are embedded as exact rationals; `np.pi` is
embedded as the exact value of the IEEE-754 double `np.pi`.
-/

namespace BARW

/-- The IEEE-754 double value of `np.pi`, as an exact rational. -/
def npPi : ℚ := 884279719003555 / 281474976710656

/-- Python float modulo: `a % b = a - b * floor (a / b)` (the result takes the
sign of the divisor, which is how Python's `%` behaves on floats). -/
def pymod (a b : ℚ) : ℚ := a - b * (⌊a / b⌋ : ℤ)

/-- Line 152 of `branching_simulation.py`:
`angle = (neuron.angle + np.pi) % (2*np.pi) - np.pi`, applied entrywise. -/
def normalizeAngle (x : ℚ) : ℚ := pymod (x + npPi) (2 * npPi) - npPi

/-- `np.degrees`: radians to degrees. -/
def toDegrees (x : ℚ) : ℚ := x * 180 / npPi

/-- One row of the `tip` / `coordinates` arrays: `[x, y, branch, generation]`
(4 columns, as in the seed row `[[start_x, start_y, 0, 1]]`; the last column
`tip[:,-1]` is the generation label used in the angle record). -/
structure PointRec where
  x : ℚ
  y : ℚ
  branch : ℚ
  gen : ℚ
deriving DecidableEq

/-- The seed tip `[100.0, 100.0, 0, 1]` (line 135). -/
def seedPoint : PointRec := ⟨100, 100, 0, 1⟩

/-- The geometry kernel `branching_rules.py`, which is not among the given
sources.  Its two entry points are abstracted as arbitrary functions.  The
run parameters `prob`, `fc`, `fs` and the `Tissue` constants `min_angle`,
`rad_avoid`, `rad_termin`, as well as the seeded global NumPy random stream,
are closed over by the kernel; the extra leading `ℕ` argument is the step
index, which determines the state of the seeded random stream at call time.
`branching` receives (tips, headings, full coordinate history);
`guidance_avoidance` receives (tips, headings, coords_last, coords_until).
Both return the updated (tips, headings) pair. -/
structure Kernel where
  branching : ℕ → List PointRec → List ℚ → List PointRec → List PointRec × List ℚ
  guidance_avoidance : ℕ → List PointRec → List ℚ → List PointRec → List PointRec →
    List PointRec × List ℚ

/-- The mutable state of one run of `simulation_loop` (lines 135-161):
the `Tissue` fields `tip`/`angle` plus the driver's accumulating lists,
the loop counter `t`, and `steps`, an instrumentation counter of how many
times the loop body (one `evolve` call followed by one `guidance` call)
has executed. -/
structure SimState where
  tip : List PointRec
  angle : List ℚ
  coordinates : List PointRec
  coords_last : List PointRec
  coords_until : List PointRec
  angle_list : List (ℚ × ℚ)
  evolve : List ℕ
  t : ℕ
  steps : ℕ
deriving DecidableEq

/-- `np.sum (l[-j:])` for `j ≥ 1`: the sum of the last `j` entries
(all of them when `j ≥ len l`). -/
def sumLast (j : ℕ) (l : List ℕ) : ℕ := (l.reverse.take j).sum

/-- Python slice `l[-n:]` where `n` is a nonnegative count: for `n = 0` this
is `l[0:] = l` (the whole list), otherwise the last `min n (len l)` items. -/
def pythonLastN (n : ℕ) (l : List α) : List α :=
  if n = 0 then l else l.drop (l.length - n)

/-- Python slice `l[:-n]` where `n` is a nonnegative count: for `n = 0` this
is `l[:0] = []`, otherwise everything but the last `n` items. -/
def pythonDropLast (n : ℕ) (l : List α) : List α :=
  if n = 0 then [] else l.take (l.length - n)

/-- The record-keeping of one executed loop body (lines 148-161), given the
pair `(tip2, angle2)` that the two kernel calls left in the `Tissue`:
normalize the headings for recording, append the degree/generation pairs to
`angle_list`, append the tips to `coordinates`, append the tip count to
`last_tiplength_fin` (field `evolve`), recompute `coords_last` from the last
evolve entry, and recompute `coords_until` from the last two evolve entries
when `t > 2`. -/
def mkNext (s : SimState) (tip2 : List PointRec) (angle2 : List ℚ) : SimState :=
  let normA := angle2.map normalizeAngle
  let coordinates2 := s.coordinates ++ tip2
  let evolve2 := s.evolve ++ [tip2.length]
  { tip := tip2
    angle := angle2
    coordinates := coordinates2
    coords_last := pythonLastN (sumLast 1 evolve2) coordinates2
    coords_until :=
      if 2 < s.t then pythonDropLast (sumLast 2 evolve2) coordinates2 else s.coords_until
    angle_list := s.angle_list ++ List.zip (normA.map toDegrees) (tip2.map PointRec.gen)
    evolve := evolve2
    t := s.t
    steps := s.steps + 1 }

/-- The two kernel calls of one executed loop body (lines 148-149):
`neuron.evolve(coordinates)` invokes `br.branching`, then
`neuron.guidance(coords_last, coords_until, fc, fs)` invokes
`br.guidance_avoidance` on its result; the pair returned here is the
`(tip, angle)` state the `Tissue` controller holds afterwards. -/
def stepKernelOut (K : Kernel) (s : SimState) : List PointRec × List ℚ :=
  let ev := K.branching s.t s.tip s.angle s.coordinates
  K.guidance_avoidance s.t ev.1 ev.2 s.coords_last s.coords_until

/-- The active tips held by the controller after the two kernel calls of a
step (`neuron.tip` as read by lines 154 and 157). -/
def stepTips (K : Kernel) (s : SimState) : List PointRec := (stepKernelOut K s).1

/-- The headings held by the controller after the two kernel calls of a
step (`neuron.angle` as read by line 152). -/
def stepAngles (K : Kernel) (s : SimState) : List ℚ := (stepKernelOut K s).2

/-- One executed loop body: the two kernel calls, then the record-keeping
of `mkNext`. -/
def stepBody (K : Kernel) (s : SimState) : SimState :=
  mkNext s (stepTips K s) (stepAngles K s)

/-- The `for t in range(tmax)` loop (lines 145-165), fuel = remaining
iterations: run the body if there is an active tip, then break if there is
no active tip. -/
def loopAux (K : Kernel) : ℕ → SimState → SimState
  | 0, s => s
  | n + 1, s =>
      let s1 := if s.tip.length > 0 then stepBody K s else s
      if s1.tip.length = 0 then s1
      else loopAux K n { s1 with t := s1.t + 1 }

/-- The state before the loop starts (lines 135-142): seed tip at
`(100, 100)` with branch label 0 and generation label 1, seed heading
`π/2`, `coordinates = [seed]`, `coords_last = []`, `coords_until =
coordinates`, `angle_list = [[π/2, 0]]`, `last_tiplength_fin = [1]`. -/
def initState : SimState :=
  { tip := [seedPoint]
    angle := [npPi / 2]
    coordinates := [seedPoint]
    coords_last := []
    coords_until := [seedPoint]
    angle_list := [(npPi / 2, 0)]
    evolve := [1]
    t := 0
    steps := 0 }

/-- The final state of a run.  `tmax` is an integer as in Python; the loop
runs `range(tmax)`, i.e. `max tmax 0` iterations. -/
def runState (K : Kernel) (tmax : ℤ) : SimState :=
  loopAux K tmax.toNat initState

/-- The returned dictionary `d` (lines 167-172): fields `coordinates`,
`angles`, `evolve`. -/
structure SimResult where
  coordinates : List PointRec
  angles : List (ℚ × ℚ)
  evolve : List ℕ
deriving DecidableEq

/-- `simulation_loop(prob, fc, fs, tmax)` (lines 106-172).  The parameters
`prob`, `fc`, `fs` are consumed only by the kernel calls and are closed over
by `K`.  The source raises no exception on any path, so the embedding is a
total function. -/
def simulation_loop (K : Kernel) (tmax : ℤ) : SimResult :=
  let s := runState K tmax
  ⟨s.coordinates, s.angle_list, s.evolve⟩

/-- A concrete kernel for witnesses: both kernel calls leave the tips and
headings unchanged (one tip forever). -/
def Kid : Kernel :=
  ⟨fun _ tips angs _ => (tips, angs), fun _ tips angs _ _ => (tips, angs)⟩

/-- A concrete kernel for witnesses: the branching step annihilates every
tip immediately. -/
def KKill : Kernel :=
  ⟨fun _ _ _ _ => ([], []), fun _ tips angs _ _ => (tips, angs)⟩

/-- A concrete kernel for witnesses: the guidance call always returns one
tip with one heading, so it is trivially aligned. -/
def KConst : Kernel :=
  ⟨fun _ tips angs _ => (tips, angs), fun _ _ _ _ _ => ([seedPoint], [npPi / 2])⟩

/-! ### Arithmetic facts about the angle normalization -/

theorem npPi_pos : 0 < npPi := by norm_num [npPi]

theorem pymod_eq_fract (a : ℚ) {b : ℚ} (hb : b ≠ 0) :
    pymod a b = b * Int.fract (a / b) := by
  unfold pymod Int.fract
  field_simp

theorem pymod_nonneg (a : ℚ) {b : ℚ} (hb : 0 < b) : 0 ≤ pymod a b := by
  rw [pymod_eq_fract a hb.ne']
  exact mul_nonneg hb.le (Int.fract_nonneg _)

theorem pymod_lt (a : ℚ) {b : ℚ} (hb : 0 < b) : pymod a b < b := by
  rw [pymod_eq_fract a hb.ne']
  calc b * Int.fract (a / b) < b * 1 :=
        (mul_lt_mul_left hb).mpr (Int.fract_lt_one _)
    _ = b := mul_one b

/-- The driver's recording normalization lands in the half-open interval
`[-π, π)`: nonnegative Python modulo by `2π`, shifted down by `π`. -/
theorem normalizeAngle_bounds (x : ℚ) :
    -npPi ≤ normalizeAngle x ∧ normalizeAngle x < npPi := by
  have h2 : (0 : ℚ) < 2 * npPi := by linarith [npPi_pos]
  constructor
  · have := pymod_nonneg (x + npPi) h2
    unfold normalizeAngle
    linarith
  · have := pymod_lt (x + npPi) h2
    unfold normalizeAngle
    linarith

theorem toDegrees_halfpi : toDegrees (npPi / 2) = 90 := by
  have hne : npPi ≠ 0 := ne_of_gt npPi_pos
  unfold toDegrees
  field_simp
  ring

theorem normalizeAngle_halfpi : normalizeAngle (npPi / 2) = npPi / 2 := by
  have hne : npPi ≠ 0 := ne_of_gt npPi_pos
  have h1 : (npPi / 2 + npPi) / (2 * npPi) = 3 / 4 := by
    field_simp
    ring
  unfold normalizeAngle pymod
  rw [h1]
  norm_num

theorem normalizeAngle_pi : normalizeAngle npPi = -npPi := by
  have hne : npPi ≠ 0 := ne_of_gt npPi_pos
  have h1 : (npPi + npPi) / (2 * npPi) = 1 := by
    field_simp
    ring
  unfold normalizeAngle pymod
  rw [h1, Int.floor_one]
  push_cast
  ring

/-! ### Facts about `sumLast` and the Python slices -/

theorem sumLast_le_sum (j : ℕ) (l : List ℕ) : sumLast j l ≤ l.sum := by
  have h : l.sum = (l.reverse.take j).sum + (l.reverse.drop j).sum := by
    rw [← List.sum_append, List.take_append_drop, List.sum_reverse]
  unfold sumLast
  omega

theorem sumLast_one_append (l : List ℕ) (k : ℕ) : sumLast 1 (l ++ [k]) = k := by
  simp [sumLast]

theorem sumLast_two_append (l : List ℕ) (k : ℕ) :
    sumLast 2 (l ++ [k]) = k + sumLast 1 l := by
  simp only [sumLast, List.reverse_append, List.reverse_cons, List.reverse_nil,
    List.nil_append, List.singleton_append, List.take_succ_cons, List.sum_cons]

theorem sumLast_one_le_two (l : List ℕ) : sumLast 1 l ≤ sumLast 2 l := by
  unfold sumLast
  cases h : l.reverse with
  | nil => simp
  | cons y ys => simp [List.take_succ_cons]

theorem sumLast_one_cons_le (a : ℕ) (l : List ℕ) :
    sumLast 1 l ≤ sumLast 1 (a :: l) := by
  unfold sumLast
  rw [List.reverse_cons]
  cases h : l.reverse with
  | nil => simp
  | cons y ys => simp [h, List.take_succ_cons]

theorem pythonDropLast_split (n : ℕ) (l : List α) :
    ∃ rest, l = pythonDropLast n l ++ rest := by
  unfold pythonDropLast
  split
  · exact ⟨l, rfl⟩
  · exact ⟨l.drop (l.length - n), (List.take_append_drop _ _).symm⟩

theorem pythonDropLast_zero (l : List α) : pythonDropLast 0 l = [] := rfl

theorem pythonDropLast_length_of_ne (l : List α) {n : ℕ} (h : n ≠ 0) :
    (pythonDropLast n l).length = l.length - n := by
  unfold pythonDropLast
  rw [if_neg h, List.length_take]
  omega

/-! ### The loop invariant -/

/-- Invariant maintained by every loop iteration, for every kernel:
the evolve entries sum to the number of recorded points; the evolve list is
never empty; `coords_until` is an initial segment of `coordinates` that
leaves out at least the points recorded by the two most recent executed
steps (the last two entries of `evolve` past the initial seed entry); the
evolve length counts the executed steps plus the initial entry; the angle
record begins with the seed entry `(π/2, 0)` and every later entry stores in
its first component the degree image of a normalized heading. -/
structure Inv (s : SimState) : Prop where
  sum_evolve : s.evolve.sum = s.coordinates.length
  evolve_ne : s.evolve ≠ []
  until_split : ∃ rest, s.coordinates = s.coords_until ++ rest
  until_bound :
    s.coords_until.length + sumLast 2 (s.evolve.drop 1) ≤ s.coordinates.length
  evolve_len : s.evolve.length = s.steps + 1
  angle_head : ∃ rest, s.angle_list = (npPi / 2, 0) :: rest
  angle_deg : ∀ p ∈ s.angle_list.drop 1,
    ∃ θ, -npPi ≤ θ ∧ θ < npPi ∧ p.1 = toDegrees θ

theorem init_inv : Inv initState := by
  refine ⟨rfl, by simp [initState], ⟨[], rfl⟩, by simp [initState, sumLast], rfl,
    ⟨[], rfl⟩, ?_⟩
  intro p hp
  simp [initState] at hp

theorem mkNext_inv (s : SimState) (tip2 : List PointRec)
    (angle2 : List ℚ) (h : Inv s) : Inv (mkNext s tip2 angle2) := by
  obtain ⟨e0, er, hev⟩ := List.exists_cons_of_ne_nil h.evolve_ne
  obtain ⟨crest, hco⟩ := h.until_split
  obtain ⟨arest, han⟩ := h.angle_head
  have hsum2 : (mkNext s tip2 angle2).evolve.sum =
      (mkNext s tip2 angle2).coordinates.length := by
    simp [mkNext, h.sum_evolve]
  have hdrop : (mkNext s tip2 angle2).evolve.drop 1 = er ++ [tip2.length] := by
    simp [mkNext, hev]
  have hlen2 : (mkNext s tip2 angle2).coordinates.length =
      s.coordinates.length + tip2.length := by
    simp [mkNext]
  refine ⟨hsum2, by simp [mkNext], ?_, ?_, by simp [mkNext, h.evolve_len], ?_, ?_⟩
  · -- coords_until is an initial segment of coordinates
    simp only [mkNext]
    split
    · exact pythonDropLast_split _ _
    · exact ⟨crest ++ tip2, by rw [hco, List.append_assoc]⟩
  · -- coords_until leaves out at least the last two steps' points
    have hdl : sumLast 2 ((s.evolve ++ [tip2.length]).drop 1) =
        tip2.length + sumLast 1 er := by
      rw [hev, List.cons_append, List.drop_one, List.tail_cons, sumLast_two_append]
    have hold : s.coords_until.length + sumLast 2 er ≤ s.coordinates.length := by
      have := h.until_bound
      rwa [hev, List.drop_one, List.tail_cons] at this
    simp only [mkNext]
    split
    · -- t > 2: the code recomputes coords_until from the last two counts
      have hfull : sumLast 2 (s.evolve ++ [tip2.length]) =
          tip2.length + sumLast 1 s.evolve := sumLast_two_append _ _
      have hone : sumLast 1 er ≤ sumLast 1 s.evolve := by
        rw [hev]; exact sumLast_one_cons_le _ _
      have hle : sumLast 2 (s.evolve ++ [tip2.length]) ≤
          (s.coordinates ++ tip2).length := by
        have h1 : sumLast 2 (s.evolve ++ [tip2.length]) ≤
            (s.evolve ++ [tip2.length]).sum := sumLast_le_sum _ _
        have h2 : (s.evolve ++ [tip2.length]).sum = (s.coordinates ++ tip2).length := by
          simp [h.sum_evolve]
        omega
      rw [hdl]
      by_cases hz : sumLast 2 (s.evolve ++ [tip2.length]) = 0
      · have h0 : tip2.length + sumLast 1 s.evolve = 0 := by rw [← hfull, hz]
        rw [hz, pythonDropLast_zero, List.length_nil]
        omega
      · rw [pythonDropLast_length_of_ne _ hz]
        rw [hfull] at hz ⊢
        simp only [List.length_append] at *
        omega
    · -- t ≤ 2: coords_until is unchanged
      have hone : sumLast 1 er ≤ sumLast 2 er := sumLast_one_le_two er
      rw [hdl]
      simp only [List.length_append]
      omega
  · -- the angle record still starts with the seed entry
    exact ⟨arest ++ List.zip ((angle2.map normalizeAngle).map toDegrees)
      (tip2.map PointRec.gen), by simp [mkNext, han]⟩
  · -- every later angle entry is the degree image of a normalized heading
    intro p hp
    simp only [mkNext, han, List.cons_append, List.drop_one, List.tail_cons,
      List.mem_append] at hp
    rcases hp with hp | hp
    · refine h.angle_deg p ?_
      rw [han]
      simpa using hp
    · obtain ⟨a, b⟩ := p
      obtain ⟨ha, -⟩ := List.of_mem_zip hp
      simp only [List.map_map, List.mem_map, Function.comp] at ha
      obtain ⟨θ0, -, hθ0⟩ := ha
      exact ⟨normalizeAngle θ0, (normalizeAngle_bounds θ0).1,
        (normalizeAngle_bounds θ0).2, hθ0.symm⟩

theorem stepBody_inv (K : Kernel) (s : SimState) (h : Inv s) :
    Inv (stepBody K s) := mkNext_inv s _ _ h

theorem loopAux_inv (K : Kernel) (n : ℕ) :
    ∀ s : SimState, Inv s → Inv (loopAux K n s) := by
  induction n with
  | zero => intro s h; exact h
  | succ n ih =>
      intro s h
      rw [loopAux]
      by_cases hb : s.tip.length > 0
      · simp only [if_pos hb]
        have h1 : Inv (stepBody K s) := stepBody_inv K s h
        split
        · exact h1
        · exact ih _ ⟨h1.sum_evolve, h1.evolve_ne, h1.until_split, h1.until_bound,
            h1.evolve_len, h1.angle_head, h1.angle_deg⟩
      · simp only [if_neg hb]
        split
        · exact h
        · exact ih _ ⟨h.sum_evolve, h.evolve_ne, h.until_split, h.until_bound,
            h.evolve_len, h.angle_head, h.angle_deg⟩

/-! ### Loop composition, freezing, and step counting -/

theorem loopAux_of_tip_nil (K : Kernel) (n : ℕ) (s : SimState) (h : s.tip = []) :
    loopAux K n s = s := by
  cases n with
  | zero => rfl
  | succ n =>
      rw [loopAux]
      have hlen : s.tip.length = 0 := by rw [h]; rfl
      simp [hlen]

theorem loopAux_add (K : Kernel) (j k : ℕ) (s : SimState) :
    loopAux K (j + k) s = loopAux K k (loopAux K j s) := by
  induction j generalizing s with
  | zero => rw [Nat.zero_add]; rfl
  | succ j ih =>
      rw [Nat.succ_add, loopAux, loopAux]
      by_cases hb : s.tip.length > 0
      · simp only [if_pos hb]
        split
        · rename_i hnil
          exact (loopAux_of_tip_nil K k _ (List.length_eq_zero.mp hnil)).symm
        · exact ih _
      · simp only [if_neg hb]
        split
        · rename_i hnil
          exact (loopAux_of_tip_nil K k _ (List.length_eq_zero.mp hnil)).symm
        · exact ih _

theorem loopAux_evolve_le (K : Kernel) (n : ℕ) :
    ∀ s : SimState, (loopAux K n s).evolve.length ≤ s.evolve.length + n := by
  induction n with
  | zero => intro s; exact Nat.le_refl _
  | succ n ih =>
      intro s
      rw [loopAux]
      have hstep : ∀ s2 : SimState,
          (stepBody K s2).evolve.length = s2.evolve.length + 1 := by
        intro s2; simp [stepBody, mkNext]
      by_cases hb : s.tip.length > 0
      · simp only [if_pos hb]
        split
        · rw [hstep]; omega
        · refine le_trans (ih _) ?_
          show (stepBody K s).evolve.length + n ≤ s.evolve.length + (n + 1)
          rw [hstep]; omega
      · simp only [if_neg hb]
        split
        · omega
        · refine le_trans (ih _) ?_
          show s.evolve.length + n ≤ s.evolve.length + (n + 1)
          omega

theorem loopAux_evolve_of_alive (K : Kernel) (n : ℕ) :
    ∀ s : SimState, (loopAux K n s).tip ≠ [] →
      (loopAux K n s).evolve.length = s.evolve.length + n := by
  induction n with
  | zero => intro s _; rfl
  | succ n ih =>
      intro s halive
      have hstep : (stepBody K s).evolve.length = s.evolve.length + 1 := by
        simp [stepBody, mkNext]
      rw [loopAux] at halive ⊢
      by_cases hb : s.tip.length > 0
      · simp only [if_pos hb] at halive ⊢
        by_cases hnil : (stepBody K s).tip.length = 0
        · rw [if_pos hnil] at halive
          exact absurd (List.length_eq_zero.mp hnil) halive
        · rw [if_neg hnil] at halive ⊢
          rw [ih _ halive]
          have h2 : ({ stepBody K s with t := (stepBody K s).t + 1 } :
              SimState).evolve.length = s.evolve.length + 1 := hstep
          rw [h2]; omega
      · exfalso
        have hnil : s.tip.length = 0 := by omega
        simp only [if_neg hb, if_pos hnil] at halive
        exact halive (List.length_eq_zero.mp hnil)

/-! ### Alignment of the angle record with the point record -/

/-- The specification's guarantee for the guidance/avoidance kernel call
(spec section 4.2): the returned tip and heading collections have equal
length. -/
def GuidanceAligned (K : Kernel) : Prop :=
  ∀ (t : ℕ) (tips : List PointRec) (angs : List ℚ)
    (cl cu : List PointRec),
    (K.guidance_avoidance t tips angs cl cu).1.length =
      (K.guidance_avoidance t tips angs cl cu).2.length

theorem mkNext_len (s : SimState) (tip2 : List PointRec) (angle2 : List ℚ)
    (hlen : tip2.length = angle2.length)
    (h : s.angle_list.length = s.coordinates.length) :
    (mkNext s tip2 angle2).angle_list.length =
      (mkNext s tip2 angle2).coordinates.length := by
  simp [mkNext, h, ← hlen]

theorem loopAux_len (K : Kernel) (hK : GuidanceAligned K) (n : ℕ) :
    ∀ s : SimState, s.angle_list.length = s.coordinates.length →
      (loopAux K n s).angle_list.length = (loopAux K n s).coordinates.length := by
  induction n with
  | zero => intro s h; exact h
  | succ n ih =>
      intro s h
      rw [loopAux]
      by_cases hb : s.tip.length > 0
      · simp only [if_pos hb]
        have h1 : (stepBody K s).angle_list.length =
            (stepBody K s).coordinates.length :=
          mkNext_len s _ _ (hK s.t _ _ _ _) h
        split
        · exact h1
        · exact ih _ h1
      · simp only [if_neg hb]
        split
        · exact h
        · exact ih _ h

/-! ### The claims -/

/-- C1: for every run of `simulation_loop` with valid parameters (the
branching probability is part of the kernel; `tmax` a non-negative integer),
the sum of the returned `evolve` entries, including the initial seed count,
equals the number of returned `coordinates` rows, including the seed row.
This holds for every kernel behaviour. -/
theorem C1_sum_evolve_eq_coordinates (K : Kernel) (tmax : ℤ) (_h : 0 ≤ tmax) :
    (simulation_loop K tmax).evolve.sum =
      (simulation_loop K tmax).coordinates.length :=
  (loopAux_inv K tmax.toNat initState init_inv).sum_evolve

/-- Witness for C1: the identity kernel run for 2 steps. -/
theorem C1_witness :
    (0 : ℤ) ≤ 2 ∧ (simulation_loop Kid 2).evolve.sum =
      (simulation_loop Kid 2).coordinates.length :=
  ⟨by decide, C1_sum_evolve_eq_coordinates Kid 2 (by decide)⟩

/-- C2 counterexample: the claim `len(evolve) ≤ tmax` is false.  With the
identity kernel (one live tip forever) and `tmax = 5`, the returned `evolve`
has 6 entries: the initial seed count plus one entry per executed step. -/
theorem C2_counterexample :
    (simulation_loop Kid 5).evolve.length = 5 + 1 ∧
      ¬ (simulation_loop Kid 5).evolve.length ≤ (5 : ℤ).toNat := by
  constructor
  · rfl
  · decide

/-- C2 amended: the returned `evolve` has at most `tmax + 1` entries (the
initial seed-count entry plus at most one entry per loop iteration); its
length is exactly one more than the number of executed steps; and if the
run ends with live tips (no early annihilation) the length is exactly
`tmax + 1`. -/
theorem C2_amended_evolve_length (K : Kernel) (tmax : ℤ) :
    (simulation_loop K tmax).evolve.length ≤ tmax.toNat + 1 ∧
      (simulation_loop K tmax).evolve.length = (runState K tmax).steps + 1 ∧
      ((runState K tmax).tip ≠ [] →
        (simulation_loop K tmax).evolve.length = tmax.toNat + 1) := by
  refine ⟨?_, ?_, ?_⟩
  · have h := loopAux_evolve_le K tmax.toNat initState
    have hinit : initState.evolve.length = 1 := rfl
    show (loopAux K tmax.toNat initState).evolve.length ≤ tmax.toNat + 1
    omega
  · exact (loopAux_inv K tmax.toNat initState init_inv).evolve_len
  · intro halive
    have h := loopAux_evolve_of_alive K tmax.toNat initState halive
    have hinit : initState.evolve.length = 1 := rfl
    show (loopAux K tmax.toNat initState).evolve.length = tmax.toNat + 1
    omega

/-- Witness for C2: with the identity kernel and `tmax = 5` the tips stay
alive and the evolve record has exactly `5 + 1` entries. -/
theorem C2_witness :
    (simulation_loop Kid 5).evolve.length = (5 : ℤ).toNat + 1 :=
  (C2_amended_evolve_length Kid 5).2.2 (by decide)

/-- C3 counterexample: `simulation_loop` performs no parameter validation.
At the invalid parameter `tmax = -1` (the claim requires a raised error for
`tmax ≤ 0`) the embedded function — total, because the source raises on no
path — runs and returns the fully formed seed-only record instead of
failing fast. -/
theorem C3_counterexample :
    simulation_loop Kid (-1) = ⟨[seedPoint], [(npPi / 2, 0)], [1]⟩ := rfl

/-- C3 amended: `simulation_loop` validates nothing and never raises; an
invalid `tmax ≤ 0` yields the seed-only record (the `range` loop body never
runs), and invalid kernel-side parameters (p, radii, angles, all closed over
by `K`) are silently passed through to the kernel calls. -/
theorem C3_amended_no_validation (K : Kernel) (tmax : ℤ) (h : tmax ≤ 0) :
    simulation_loop K tmax = ⟨[seedPoint], [(npPi / 2, 0)], [1]⟩ := by
  unfold simulation_loop runState
  rw [Int.toNat_of_nonpos h]
  rfl

/-- Witness for C3 amended: `tmax = -2` with the annihilating kernel. -/
theorem C3_witness :
    (-2 : ℤ) ≤ 0 ∧ simulation_loop KKill (-2) = ⟨[seedPoint], [(npPi / 2, 0)], [1]⟩ :=
  ⟨by decide, C3_amended_no_validation KKill (-2) (by decide)⟩

/-- C4 counterexample: the entry recorded for the seed point does NOT store
its first component in degrees.  The seed heading is `π/2` radians; the
recorded first component is the raw radian value `π/2` (line 141), whereas
the in-degrees value is `90`, and `π/2 ≠ 90`. -/
theorem C4_counterexample :
    (simulation_loop Kid 0).angles = [(npPi / 2, 0)] ∧
      toDegrees (npPi / 2) = 90 ∧ npPi / 2 ≠ (90 : ℚ) := by
  refine ⟨rfl, toDegrees_halfpi, by norm_num [npPi]⟩

/-- C4 amended: the angle record always starts with the seed entry, which
stores the raw radian heading `π/2` (not degrees) with generation label 0;
and whenever step `j` of a run executes (the state after `j` iterations
still has a live tip), that step appends to the angle record exactly the
pairs `(toDegrees (normalizeAngle θ_i), g_i)` — the step's kernel-produced
headings converted to degrees after normalization, each paired with the
generation label of the tip at the same index. -/
theorem C4_amended_angles_in_degrees (K : Kernel) (tmax : ℤ) (j : ℕ)
    (halive : (loopAux K j initState).tip ≠ []) :
    (simulation_loop K tmax).angles.head? = some (npPi / 2, 0) ∧
      (loopAux K (j + 1) initState).angle_list =
        (loopAux K j initState).angle_list ++
          List.zip
            ((stepAngles K (loopAux K j initState)).map
              (fun θ => toDegrees (normalizeAngle θ)))
            ((stepTips K (loopAux K j initState)).map PointRec.gen) := by
  constructor
  · obtain ⟨rest, hr⟩ :=
      (loopAux_inv K tmax.toNat initState init_inv).angle_head
    show (runState K tmax).angle_list.head? = some (npPi / 2, 0)
    rw [show (runState K tmax).angle_list = (npPi / 2, 0) :: rest from hr]
    rfl
  · rw [loopAux_add K j 1]
    have hlen : (loopAux K j initState).tip.length > 0 := by
      cases htip : (loopAux K j initState).tip with
      | nil => exact absurd htip halive
      | cons a l => simp [htip]
    have h1 : (loopAux K 1 (loopAux K j initState)).angle_list =
        (stepBody K (loopAux K j initState)).angle_list := by
      rw [loopAux, if_pos hlen]
      split <;> rfl
    rw [h1]
    show (mkNext (loopAux K j initState) (stepTips K (loopAux K j initState))
        (stepAngles K (loopAux K j initState))).angle_list = _
    simp only [mkNext, List.map_map]
    rfl

/-- Witness for C4: step 0 of the identity kernel executes from the live
seed state; the amended theorem yields the seed head entry and the exact
step-appended block for that step. -/
theorem C4_witness :
    (simulation_loop Kid 1).angles.head? = some (npPi / 2, 0) ∧
      (loopAux Kid (0 + 1) initState).angle_list =
        (loopAux Kid 0 initState).angle_list ++
          List.zip
            ((stepAngles Kid (loopAux Kid 0 initState)).map
              (fun θ => toDegrees (normalizeAngle θ)))
            ((stepTips Kid (loopAux Kid 0 initState)).map PointRec.gen) :=
  C4_amended_angles_in_degrees Kid 1 0 (by decide)

/-- C5 counterexample: the normalization of line 152 does not land in
`(-π, π]`: at heading `π` it returns exactly `-π`, violating `-π < h`. -/
theorem C5_counterexample :
    normalizeAngle npPi = -npPi ∧ ¬ (-npPi < normalizeAngle npPi) := by
  refine ⟨normalizeAngle_pi, ?_⟩
  rw [normalizeAngle_pi]
  exact lt_irrefl _

/-- C5 amended: the recording normalization
`(angle + π) % (2π) - π` of line 152 maps every heading into the half-open
interval `[-π, π)` — closed at `-π`, open at `π` (the mirror image of the
claimed `(-π, π]`). -/
theorem C5_amended_normalization_range (x : ℚ) :
    -npPi ≤ normalizeAngle x ∧ normalizeAngle x < npPi :=
  normalizeAngle_bounds x

/-- C6: determinism under a fixed randomness source.  The seeded random
stream and all numeric parameters are part of the kernel value, so two
invocations with identical parameters and identically seeded randomness are
two calls of `simulation_loop` at equal arguments, and every observable
(coordinates, angles, evolve) coincides. -/
theorem C6_deterministic (K1 K2 : Kernel) (t1 t2 : ℤ)
    (hK : K1 = K2) (ht : t1 = t2) :
    simulation_loop K1 t1 = simulation_loop K2 t2 := by
  rw [hK, ht]

/-- Witness for C6: two identical invocations at the identity kernel. -/
theorem C6_witness : simulation_loop Kid 2 = simulation_loop Kid 2 :=
  C6_deterministic Kid Kid 2 2 rfl rfl

/-- C7: at every reachable loop state — in particular at the state seen by
the guidance call of every executed step — the stable-history slice
`coords_until` is an initial segment of `coordinates` whose length leaves
out at least the points appended during the two most recently executed
steps (the last two entries of `evolve` past the initial seed entry count
exactly those points, which sit at the very end of `coordinates`). -/
theorem C7_stable_window_excludes_recent (K : Kernel) (j : ℕ) :
    (∃ rest, (loopAux K j initState).coordinates =
        (loopAux K j initState).coords_until ++ rest) ∧
      (loopAux K j initState).coords_until.length +
          sumLast 2 ((loopAux K j initState).evolve.drop 1) ≤
        (loopAux K j initState).coordinates.length := by
  have h := loopAux_inv K j initState init_inv
  exact ⟨h.until_split, h.until_bound⟩

/-- C8: once the active tip collection is empty, the loop exits and freezes:
running any number of further iterations changes nothing — the whole state,
including `coordinates`, `angle_list`, `evolve` and the instrumentation
counter of executed bodies (hence no further evolve/guidance call), stays
exactly as it was. -/
theorem C8_frozen_after_death (K : Kernel) (j k : ℕ)
    (h : (loopAux K j initState).tip = []) :
    loopAux K (j + k) initState = loopAux K j initState := by
  rw [loopAux_add]
  exact loopAux_of_tip_nil K k _ h

/-- Witness for C8: the annihilating kernel kills all tips in the first
step; three more iterations change nothing. -/
theorem C8_witness :
    loopAux KKill (1 + 3) initState = loopAux KKill 1 initState :=
  C8_frozen_after_death KKill 1 3 (by decide)

/-- C9: `tmax = 0` returns, without error, exactly the seed point, the seed
angle entry and the initial tip count — for every kernel. -/
theorem C9_tmax_zero (K : Kernel) :
    simulation_loop K 0 = ⟨[seedPoint], [(npPi / 2, 0)], [1]⟩ := rfl

/-- C10: if the guidance/avoidance kernel call returns tip and heading
collections of equal length (the specification's guarantee for the kernel,
which is not among the sources), then each executed step appends equally
many rows to `angles` and to `coordinates`, so the two returned sequences
always have exactly equal length (the seed contributes one entry to each). -/
theorem C10_angles_length_eq_coordinates (K : Kernel) (hK : GuidanceAligned K)
    (tmax : ℤ) :
    (simulation_loop K tmax).angles.length =
      (simulation_loop K tmax).coordinates.length :=
  loopAux_len K hK tmax.toNat initState rfl

/-- Witness for C10: the constant kernel returns one tip and one heading
from every guidance call, so it is guidance-aligned. -/
theorem C10_witness :
    (simulation_loop KConst 3).angles.length =
      (simulation_loop KConst 3).coordinates.length :=
  C10_angles_length_eq_coordinates KConst (fun _ _ _ _ _ => rfl) 3

end BARW
